import Mathlib

/-!
Shallow embedding of the job-shop scheduling simulator
(`jobs.py`, `machines.py`, `iha_scheduler.py`, `simulation.py`).

Real-valued quantities (temperatures, vibrations, power) are modelled as
rationals; Python ints are `Int`/`Nat`.  The random draws made inside
`Machine.step` (`random.uniform`, spike coin flips) and the external ML
model invoked by `_maybe_predict_failure` are the only sources of
nondeterminism; they are passed in explicitly as parameters (`Noise`,
a `predict` oracle), so every function below is a pure translation of
the corresponding Python code.
-/

namespace JobShop

/-- Embedding of `jobs.py` `Job` (dataclass).  `steps` entries are
`(machine_class, remaining_ticks, power_kw)`; `remaining_ticks` is an `Int`
because Python decrements it below zero before advancing `current_step`. -/
structure Job where
  job_id : String
  intensity : String
  temp_inc : ℚ
  vib_inc : ℚ
  power_kw : ℚ
  reduction : ℚ := 0
  steps : List (String × Int × ℚ) := []
  current_step : ℕ := 0
  energy_used : ℚ := 0
deriving DecidableEq

/-- Embedding of `Job.done`: `current_step >= len(steps)`. -/
def Job.done (j : Job) : Bool := j.steps.length ≤ j.current_step

/-- Embedding of `Job.required_class`: `""` when done, else the class of the
current step.  (`current_step` is in bounds exactly when the job is not done.) -/
def Job.required_class (j : Job) : String :=
  match j.steps.get? j.current_step with
  | some s => s.1
  | none => ""

/-- Embedding of `Job.remaining_ticks_on_step`: `0` when done. -/
def Job.remaining_ticks_on_step (j : Job) : Int :=
  match j.steps.get? j.current_step with
  | some s => s.2.1
  | none => 0

/-- Embedding of `Job.current_power_kw`: `0.0` when done. -/
def Job.current_power_kw (j : Job) : ℚ :=
  match j.steps.get? j.current_step with
  | some s => s.2.2
  | none => 0

/-- Embedding of `Job.work_one_tick`: decrement the current step's remaining
ticks, accumulate energy, write the updated step back, and advance
`current_step` when the remaining ticks have dropped to `<= 0`. -/
def Job.work_one_tick (j : Job) : Job :=
  if j.done then j
  else
    match j.steps.get? j.current_step with
    | none => j
    | some (cls, rem, pwr) =>
      let rem' := rem - 1
      let j' : Job :=
        { j with
          energy_used := j.energy_used + pwr * (1 / 60)
          steps := j.steps.set j.current_step (cls, rem', pwr) }
      if rem' ≤ 0 then { j' with current_step := j'.current_step + 1 } else j'

/-- One tick worth of random draws for one machine, embedding the calls to
`random.uniform` in `Machine.step`: `uT ~ U(-1.0, 1.4)`, `uV ~ U(-0.4, 0.6)`,
and `spikeT`/`spikeV` are `some s` when the corresponding `random.random() < 0.07`
coin fires with spike magnitude `s` (`U(2.0, 6.0)` resp. `U(0.8, 2.0)`). -/
structure Noise where
  uT : ℚ := 0
  uV : ℚ := 0
  spikeT : Option ℚ := none
  spikeV : Option ℚ := none
deriving DecidableEq

/-- Embedding of `machines.py` `Machine` (dataclass).  `__post_init__` sets
`temperature = temp_base`, `vibration = vib_base`; use `Machine.mk0` for a
freshly constructed machine.  `was_repairing` is the attribute that
`WorkspaceSimulation.tick` attaches to each machine. -/
structure Machine where
  class_name : String
  machine_id : String
  temp_base : ℚ
  temp_threshold : ℚ
  vib_base : ℚ
  vib_threshold : ℚ
  repair_time : ℕ
  temperature : ℚ
  vibration : ℚ
  busy_with : Option Job := none
  repairing_left : ℕ := 0
  total_power_kwh : ℚ := 0
  was_repairing : Bool := false
deriving DecidableEq

/-- Embedding of `Machine(...)` construction followed by `__post_init__`. -/
def Machine.mk0 (cls mid : String) (tb tt vb vt : ℚ) (rt : ℕ) : Machine :=
  { class_name := cls, machine_id := mid, temp_base := tb, temp_threshold := tt
    vib_base := vb, vib_threshold := vt, repair_time := rt
    temperature := tb, vibration := vb }

/-- Embedding of the `Machine.operational` property. -/
def Machine.operational (m : Machine) : Bool := m.repairing_left == 0

/-- Embedding of the `Machine.idle` property. -/
def Machine.idle (m : Machine) : Bool := m.operational && m.busy_with.isNone

/-- Embedding of `Machine.assign`.  Returns the Python return value together
with the updated machine (the job itself is never written to). -/
def Machine.assign (m : Machine) (job : Job) : Bool × Machine :=
  if ¬ m.idle then (false, m)
  else if job.required_class ≠ m.class_name then (false, m)
  else
    let temp_diff := m.temperature - m.temp_base
    let vib_diff := m.vibration - m.vib_base
    let reduction := job.reduction
    let m1 :=
      if 0 < reduction then
        { m with
          temperature := m.temperature - temp_diff * reduction
          vibration := m.vibration - vib_diff * reduction }
      else m
    (true, { m1 with busy_with := some job })

/-- Embedding of `Machine._cooldown`. -/
def Machine.cooldown (m : Machine) : Machine :=
  { m with
    temperature := max m.temp_base (m.temperature - 12 / 10)
    vibration := max m.vib_base (m.vibration - 25 / 100) }

/-- Embedding of `Machine._maybe_spike`; the coin flips and magnitudes come
from the `Noise` record. -/
def Machine.maybe_spike (m : Machine) (n : Noise) : Machine :=
  let m1 := match n.spikeT with
    | some s => { m with temperature := m.temperature + s }
    | none => m
  match n.spikeV with
  | some s => { m1 with vibration := m1.vibration + s }
  | none => m1

/-- Tag of the event returned by `Machine.step` (Python uses the strings
`"FAILED"`, `"STEP_DONE"`, `"COMPLETED"` or `None`). -/
inductive MEvent where
  | FAILED
  | STEP_DONE
  | COMPLETED
deriving DecidableEq

/-- Embedding of `Machine.step`.  Returns the `(event, data)` pair and the
updated machine.  `put_back_unfinished_step_front` on the failed job is a
no-op in `jobs.py` and is therefore not reflected in the state. -/
def Machine.step (m : Machine) (n : Noise) : Option (MEvent × Job) × Machine :=
  if 0 < m.repairing_left then
    let r := m.repairing_left - 1
    if r = 0 then
      (none, { m with repairing_left := r, temperature := m.temp_base, vibration := m.vib_base })
    else
      (none, { m with repairing_left := r })
  else
    match m.busy_with with
    | some j =>
      let m1 := { m with
        temperature := m.temperature + j.temp_inc + n.uT
        vibration := m.vibration + j.vib_inc + n.uV }
      let m2 := { m1 with total_power_kwh := m1.total_power_kwh + j.current_power_kw * (1 / 60) }
      let m3 := m2.maybe_spike n
      if m3.temp_threshold ≤ m3.temperature ∨ m3.vib_threshold ≤ m3.vibration then
        (some (MEvent.FAILED, j),
          { m3 with busy_with := none, repairing_left := m3.repair_time })
      else
        let before := j.remaining_ticks_on_step
        let j1 := j.work_one_tick
        if j1.done then
          (some (MEvent.COMPLETED, j1), { m3 with busy_with := none })
        else if before = 1 then
          (some (MEvent.STEP_DONE, j1), { m3 with busy_with := none })
        else
          (none, { m3 with busy_with := some j1 })
    | none =>
      (none, m.cooldown)

/-!
Embedding of `iha_scheduler.py`.  The translation follows the pure-Python
code path (`np = None`), with matrices as lists of rows; the greedy
fallback is the in-repository assignment solver (`_greedy_assignment`).
-/

/-- Embedding of `_safe_array_min_max` on a list with no `None`/`inf`
entries (rationals have neither): `(0, 0)` on the empty list, else the
minimum and maximum. -/
def safeMinMax : List ℚ → ℚ × ℚ
  | [] => (0, 0)
  | x :: xs => (xs.foldl min x, xs.foldl max x)

/-- Embedding of `_normalize_matrix` (list-of-rows branch) with its default
`eps = 1e-9`. -/
def normalizeMatrix (mat : List (List ℚ)) : List (List ℚ) :=
  let mm := safeMinMax mat.flatten
  let mn := mm.1
  let mx := mm.2
  if |mx - mn| < 1 / 1000000000 then
    mat.map (fun row => row.map (fun _ => 0))
  else
    mat.map (fun row => row.map (fun v => (v - mn) / (mx - mn)))

/-- Loop body of `_greedy_assignment`: walk the cost-sorted entries, take an
entry whenever its row and column are both free, and stop (`break`) once
`n_rows` rows or `n_cols` columns are taken. -/
def greedyLoop (nRows nCols : ℕ) :
    List (ℚ × ℕ × ℕ) → List ℕ → List ℕ → List (ℕ × ℕ) → List (ℕ × ℕ)
  | [], _, _, pairs => pairs
  | (_, i, j) :: rest, takenR, takenC, pairs =>
    if i ∈ takenR ∨ j ∈ takenC then
      greedyLoop nRows nCols rest takenR takenC pairs
    else
      let takenR' := i :: takenR
      let takenC' := j :: takenC
      let pairs' := pairs ++ [(i, j)]
      if nRows ≤ takenR'.length ∨ nCols ≤ takenC'.length then pairs'
      else greedyLoop nRows nCols rest takenR' takenC' pairs'

/-- Insert an entry into a cost-sorted list, before the first entry whose
cost is not smaller.  Used to model Python's stable `entries.sort(key=...)`:
an element is placed ahead of every equal-cost element that occurred later
in the original order. -/
def insertByCost (a : ℚ × ℕ × ℕ) : List (ℚ × ℕ × ℕ) → List (ℚ × ℕ × ℕ)
  | [] => [a]
  | b :: bs => if b.1 < a.1 then b :: insertByCost a bs else a :: b :: bs

/-- Stable sort by cost (first component); produces exactly the list that
Python's stable `sort(key=lambda x: x[0])` produces. -/
def sortByCost (l : List (ℚ × ℕ × ℕ)) : List (ℚ × ℕ × ℕ) :=
  l.foldr insertByCost []

/-- Embedding of `_greedy_assignment`: flatten the cost matrix into
`(value, i, j)` entries in row-major order, stable-sort them by cost, and
run the selection loop.  Returns the selected `(row, col)` pairs, i.e.
`zip(rows, cols)` of the Python return value. -/
def greedyAssignment (costMatrix : List (List ℚ)) (nRows nCols : ℕ) : List (ℕ × ℕ) :=
  let entries :=
    (costMatrix.enum.map (fun ir =>
      ir.2.enum.map (fun jv => (jv.2, ir.1, jv.1)))).flatten
  greedyLoop nRows nCols (sortByCost entries) [] [] []

/-- The padded `k x k` cost matrices `L1` (flow time) and `L2` (workload) of
`run_iha`: pre-filled with the sentinel `eps`, then overwritten at every
`(i, j)` with `i < n_jobs` and `j < n_machs`. -/
def ihaCostMatrices (jobs : List Job) (machs : List Machine) (eps : ℚ) :
    List (List ℚ) × List (List ℚ) :=
  let k := max jobs.length machs.length
  let L1 := (List.range k).map (fun i => (List.range k).map (fun j =>
    match jobs.get? i, machs.get? j with
    | some job, some _ => ((job.remaining_ticks_on_step : ℚ))
    | _, _ => eps))
  let L2 := (List.range k).map (fun i => (List.range k).map (fun j =>
    match jobs.get? i, machs.get? j with
    | some _, some mach => mach.temperature + mach.vibration
    | _, _ => eps))
  (L1, L2)

/-- The weighted combined cost matrix `L = w1 * L1n + w2 * L2n` of `run_iha`,
after min-max normalization and weight re-normalization. -/
def ihaCombinedMatrix (jobs : List Job) (machs : List Machine)
    (weights : ℚ × ℚ) (eps : ℚ) : List (List ℚ) :=
  let Ls := ihaCostMatrices jobs machs eps
  let L1n := normalizeMatrix Ls.1
  let L2n := normalizeMatrix Ls.2
  let wsum := if weights.1 + weights.2 = 0 then 1 else weights.1 + weights.2
  let w1 := weights.1 / wsum
  let w2 := weights.2 / wsum
  L1n.zipWith (fun r1 r2 => r1.zipWith (fun a b => w1 * a + w2 * b) r2) L2n

/-- The raw `(row, col)` pairs chosen by the solver inside `run_iha`
(greedy path). -/
def runIhaPairs (jobs : List Job) (machs : List Machine)
    (weights : ℚ × ℚ) (eps : ℚ) : List (ℕ × ℕ) :=
  let k := max jobs.length machs.length
  greedyAssignment (ihaCombinedMatrix jobs machs weights eps) k k

/-- Embedding of `run_iha` (greedy-solver path, default `eps = 99.0`): keep
only the solver pairs whose row index addresses a real job and whose column
index addresses a real machine, and emit `(job, machine)` pairs in that
order.  `jobs.get? r = some _` holds exactly when `r < len(jobs)`, matching
the Python guard `r < n_jobs and c < n_machs`. -/
def run_iha (jobs : List Job) (machs : List Machine)
    (weights : ℚ × ℚ := (6 / 10, 4 / 10)) (eps : ℚ := 99) : List (Job × Machine) :=
  if jobs.length = 0 ∨ machs.length = 0 then []
  else
    (runIhaPairs jobs machs weights eps).filterMap (fun rc =>
      match jobs.get? rc.1, machs.get? rc.2 with
      | some j, some mc => some (j, mc)
      | _, _ => none)

/-!
Embedding of `simulation.py` (`WorkspaceSimulation`).  The class queues
(`defaultdict(deque)`) are an insertion-ordered association list from class
name to job list; reading a missing key through `defaultdict.__getitem__`
inserts it at the end (`qtouch`).  MQTT publications are collected in an
event list; per-machine status/telemetry snapshots carry no kernel state
and are not modelled.
-/

/-- Insertion-ordered association list modelling `self.class_queues`. -/
abbrev Queues := List (String × List Job)

/-- Deque stored under a class key; `[]` for a missing key (a fresh
`deque()` is what `defaultdict` would hand out). -/
def qget (qs : Queues) (c : String) : List Job :=
  match qs.lookup c with
  | some l => l
  | none => []

/-- Embedding of the `defaultdict` read side effect: reading a missing key
inserts it (with an empty deque) at the end of the insertion order. -/
def qtouch (qs : Queues) (c : String) : Queues :=
  match qs.lookup c with
  | some _ => qs
  | none => qs ++ [(c, [])]

/-- Store a deque under a class key, keeping insertion order; a missing key
is appended at the end, as a Python dict write would. -/
def qset : Queues → String → List Job → Queues
  | [], c, l => [(c, l)]
  | (c', l') :: rest, c, l =>
    if c' = c then (c, l) :: rest else (c', l') :: qset rest c l

/-- Embedding of `_enqueue_current_step_front` (deque `appendleft`). -/
def qprepend (qs : Queues) (c : String) (j : Job) : Queues :=
  qset qs c (j :: qget qs c)

/-- Deque `append` on the queue of class `c`. -/
def qappend (qs : Queues) (c : String) (j : Job) : Queues :=
  qset qs c (qget qs c ++ [j])

/-- The keys of the queue mapping in insertion order
(`list(self.class_queues.keys())`). -/
def qkeys (qs : Queues) : List String := qs.map Prod.fst

/-- Published job-shop events (`_publish_jobshop_event` payloads, keeping
the fields the claims are about).  The `FAILED` payload carries
`round(temperature, 2)` and `round(vibration, 2)`. -/
inductive SimEvent where
  | started (timestamp : ℕ) (job_id machine_id required_class : String)
      (step_remaining : Int)
  | step_done (timestamp : ℕ) (job_id next_required_class : String)
  | completed (timestamp : ℕ) (job_id machine_id : String)
  | failed (timestamp : ℕ) (machine_id cls job_id reason : String)
      (temperature vibration : ℚ)
  | prediction (timestamp : ℕ) (machine_id job_id reason : String)
      (risk_score threshold : ℚ)
deriving DecidableEq

/-- Round-half-to-even to an integer, the rounding Python's `round` uses. -/
def roundHalfEven (x : ℚ) : Int :=
  let f := ⌊x⌋
  let r := x - f
  if r < 1 / 2 then f
  else if 1 / 2 < r then f + 1
  else if f % 2 = 0 then f else f + 1

/-- Embedding of Python `round(x, 2)`. -/
def round2 (x : ℚ) : ℚ := (roundHalfEven (x * 100) : ℚ) / 100

/-- Embedding of the module-level `THRESHOLD` computation: the value loaded
from `model_meta.json` (or the default `0.5` when the file is absent or
unreadable), bumped up to `0.32` when below it. -/
def effective_threshold (loaded : Option ℚ) : ℚ :=
  let t := match loaded with
    | some v => v
    | none => 1 / 2
  if t < 32 / 100 then 32 / 100 else t

/-- Per-tick external inputs: the `Machine.step` random draws and the ML
model's `predict_proba` outcome for each machine (keyed by machine id;
`none` models a raised exception, which `_maybe_predict_failure` logs and
swallows).  The feature builder's rolling state only influences the kernel
through the returned probability, so it is absorbed into this oracle. -/
structure TickEnv where
  noise : String → Noise
  predict : String → Option ℚ

/-- Embedding of `WorkspaceSimulation._maybe_predict_failure` for one
machine: given the effective threshold and the model's output, returns the
updated machine, queues and event stream.  The guards, the `near_limit`
truthiness test and the mutation order follow the source. -/
def maybe_predict_failure (threshold : ℚ) (prob? : Option ℚ) (t : ℕ)
    (m : Machine) (qs : Queues) (evs : List SimEvent) :
    Machine × Queues × List SimEvent :=
  if 0 < m.repairing_left then (m, qs, evs)
  else
    match m.busy_with with
    | none => (m, qs, evs)
    | some j =>
      match prob? with
      | none => (m, qs, evs)
      | some prob =>
        let nearLimit :=
          (m.temp_threshold ≠ 0 ∧ (80 : ℚ) / 100 ≤ m.temperature / m.temp_threshold) ∨
          (m.vib_threshold ≠ 0 ∧ (80 : ℚ) / 100 ≤ m.vibration / m.vib_threshold)
        if threshold ≤ prob ∧ nearLimit then
          let evs' := evs ++
            [SimEvent.prediction t m.machine_id j.job_id "will_fail" prob threshold]
          let qs' := qprepend qs j.required_class j
          ({ m with busy_with := none, repairing_left := m.repair_time }, qs', evs')
        else (m, qs, evs)

/-- The per-class body of `_run_iha_scheduler`: gather the class machines
and waiting jobs, run `run_iha`, and install the re-ordered queue (emitted
jobs first, then the remaining queue members in their former order). -/
def ihaForClass (machines : List Machine) (qs : Queues) (cls : String) : Queues :=
  let class_machines := machines.filter (fun m => m.class_name == cls)
  let ready_jobs := qget qs cls
  if ready_jobs = [] then qs
  else if class_machines = [] then qs
  else
    let assignments := run_iha ready_jobs class_machines (6 / 10, 4 / 10)
    if assignments = [] then qs
    else
      let ordered_jobs := assignments.map Prod.fst
      let remaining_jobs := ready_jobs.filter (fun j => j ∉ ordered_jobs)
      qset qs cls (ordered_jobs ++ remaining_jobs)

/-- Embedding of `WorkspaceSimulation._run_iha_scheduler`: with a target
class run the body for it alone (skipping unknown keys); with no target
iterate the body over the key list taken up front. -/
def run_iha_scheduler (machines : List Machine) (qs : Queues)
    (target : Option String) : Queues :=
  let unique_classes := qkeys qs
  if unique_classes = [] then qs
  else
    match target with
    | some cls =>
      if cls ∈ unique_classes then ihaForClass machines qs cls else qs
    | none => unique_classes.foldl (ihaForClass machines) qs

/-- State threaded through `_assign_tasks` and the machine processing loop. -/
structure LoopSt where
  machines : List Machine
  queues : Queues
  events : List SimEvent
  completed : List String
deriving DecidableEq

/-- One iteration of the `_assign_tasks` loop, for the machine at list
index `i`.  Reading `self.class_queues[cls]` touches the key; a popped job
that the machine refuses is pushed back to the front. -/
def assign_step (t : ℕ) (st : LoopSt) (i : ℕ) : LoopSt :=
  match st.machines.get? i with
  | none => st
  | some m =>
    if 0 < m.repairing_left ∨ m.idle = false then st
    else
      let cls := m.class_name
      let qs := qtouch st.queues cls
      match qget qs cls with
      | [] => { st with queues := qs }
      | job :: restq =>
        let qs1 := qset qs cls restq
        let am := m.assign job
        let ms := st.machines.set i am.2
        if am.1 then
          { st with
            machines := ms
            queues := qs1
            events := st.events ++
              [SimEvent.started t job.job_id am.2.machine_id am.2.class_name
                job.remaining_ticks_on_step] }
        else
          { st with machines := ms, queues := qprepend qs1 cls job }

/-- Embedding of `WorkspaceSimulation._assign_tasks`: visit the machines in
registry order. -/
def assign_tasks (t : ℕ) (st : LoopSt) : LoopSt :=
  (List.range st.machines.length).foldl (assign_step t) st

/-- The FAILED branch of the tick's event handling: put the failed job back
at the front of its class queue, publish the `FAILED` event, and re-plan
the failed machine's class.  (`Machine.step` always returns the job with a
`FAILED` event, so the Python `if j:` guard is taken.) -/
def handle_failed (t : ℕ) (machines : List Machine) (m : Machine) (j : Job)
    (qs : Queues) (evs : List SimEvent) : Queues × List SimEvent :=
  let qs1 := qprepend qs j.required_class j
  let evs1 := evs ++
    [SimEvent.failed t m.machine_id m.class_name j.job_id "threshold_exceeded"
      (round2 m.temperature) (round2 m.vibration)]
  (run_iha_scheduler machines qs1 (some m.class_name), evs1)

/-- One iteration of the per-machine processing loop in
`WorkspaceSimulation.tick`: prediction hook, `step()`, then the event
handler.  The machine list is updated in place at index `i` (the Python
loop mutates the shared machine object), so the re-planner inside the
handlers sees the post-step machine states. -/
def machine_step_phase (threshold : ℚ) (env : TickEnv) (t : ℕ)
    (st : LoopSt) (i : ℕ) : LoopSt :=
  match st.machines.get? i with
  | none => st
  | some m =>
    let pr := maybe_predict_failure threshold (env.predict m.machine_id) t m
      st.queues st.events
    let m1 := pr.1
    let qs1 := pr.2.1
    let evs1 := pr.2.2
    let ms1 := st.machines.set i m1
    let sr := m1.step (env.noise m1.machine_id)
    let m2 := sr.2
    let ms2 := ms1.set i m2
    match sr.1 with
    | some (MEvent.FAILED, j) =>
      let he := handle_failed t ms2 m2 j qs1 evs1
      { machines := ms2, queues := he.1, events := he.2, completed := st.completed }
    | some (MEvent.STEP_DONE, j) =>
      let evs2 := evs1 ++
        [SimEvent.step_done t j.job_id (if j.done then "" else j.required_class)]
      let qs2 := if j.done then qs1 else qappend qs1 j.required_class j
      let qs3 := run_iha_scheduler ms2 qs2 (some j.required_class)
      { machines := ms2, queues := qs3, events := evs2, completed := st.completed }
    | some (MEvent.COMPLETED, j) =>
      { machines := ms2, queues := qs1
        events := evs1 ++ [SimEvent.completed t j.job_id m2.machine_id]
        completed :=
          if j.job_id ∈ st.completed then st.completed else j.job_id :: st.completed }
    | none =>
      { machines := ms2, queues := qs1, events := evs1, completed := st.completed }

/-- Simulation state (`self.t`, `self.machines`, `self.class_queues`,
`self.completed_jobs`, plus the stream of published job-shop events). -/
structure SimState where
  t : ℕ
  machines : List Machine
  class_queues : Queues
  completed_jobs : List String
  events : List SimEvent
deriving DecidableEq

/-- Whether the end-of-tick quiescence check fires: every machine idle and
every class queue empty. -/
def quiescent (machines : List Machine) (qs : Queues) : Bool :=
  machines.all Machine.idle && qs.all (fun e => e.2.isEmpty)

/-- Embedding of `WorkspaceSimulation.tick`: advance the clock, refresh the
`was_repairing` flags, run the periodic IHA pulse, assign jobs, process
every machine, and report whether the quiescence check raised
`SystemExit` (the returned Boolean). -/
def tick (threshold : ℚ) (env : TickEnv) (s : SimState) : SimState × Bool :=
  let t := s.t + 1
  let ms0 := s.machines.map (fun m =>
    { m with was_repairing := decide (0 < m.repairing_left) })
  let qs0 :=
    if t % 10 = 1 then run_iha_scheduler ms0 s.class_queues none
    else s.class_queues
  let st1 := assign_tasks t
    { machines := ms0, queues := qs0, events := s.events
      completed := s.completed_jobs }
  let st2 := (List.range st1.machines.length).foldl
    (machine_step_phase threshold env t) st1
  let halt := quiescent st2.machines st2.queues
  ({ t := t, machines := st2.machines, class_queues := st2.queues
     completed_jobs := st2.completed, events := st2.events }, halt)

/-- Embedding of `WorkspaceSimulation.run(max_ticks)`: iterate `tick` until
`SystemExit` (quiescence) or the tick budget runs out; the Boolean records
whether the loop ended by quiescence. -/
def runSim (threshold : ℚ) (env : ℕ → TickEnv) : ℕ → SimState → SimState × Bool
  | 0, s => (s, false)
  | fuel + 1, s =>
    let r := tick threshold (env s.t) s
    if r.2 then (r.1, true) else runSim threshold env fuel r.1

/-- The machine fleet built in `WorkspaceSimulation.__init__`. -/
def initial_machines : List Machine :=
  [ Machine.mk0 "A" "A_1" 40 100 2 16 3
  , Machine.mk0 "A" "A_2" 41 86 (22 / 10) (85 / 10) 3
  , Machine.mk0 "A" "A_3" 42 87 (21 / 10) (85 / 10) 3
  , Machine.mk0 "B" "B_1" 50 110 4 18 5
  , Machine.mk0 "B" "B_2" 49 100 (38 / 10) 14 5
  , Machine.mk0 "C" "C_1" 30 110 3 14 4
  , Machine.mk0 "C" "C_2" 31 81 (32 / 10) 10 4
  , Machine.mk0 "D" "D_1" 35 120 (15 / 10) 19 6 ]

/-- Embedding of `WorkspaceSimulation.__init__` with the given seed jobs
(each `enqueue_new_job` appends the fresh job to its class queue). -/
def initial_state (seed_jobs : List Job) : SimState :=
  { t := 0
    machines := initial_machines
    class_queues := seed_jobs.foldl (fun qs j => qappend qs j.required_class j) []
    completed_jobs := []
    events := [] }

/-!
Invariant predicates and concrete inputs used by the theorems and their
witnesses below.  The `C5` inputs stage a two-job, one-machine scenario in
which a machine failure is followed by an IHA re-plan of the class queue;
the `W` inputs are small fixed machines/jobs for witness instantiations.
-/

/-- Mutual-exclusion invariant of one machine: it never both holds a job and
is repairing (`busy_with != none` and `repairing_left > 0` never hold
together). -/
def MutexInv (m : Machine) : Prop := m.busy_with = none ∨ m.repairing_left = 0

/-- Mutual exclusion for every machine of a fleet. -/
def MachInv (ms : List Machine) : Prop := ∀ m ∈ ms, MutexInv m

/-- Job running on the machine that fails in the C5 scenario (5 ticks left
on its only step, class A). -/
def jC5f : Job :=
  { job_id := "JF", intensity := "stress", temp_inc := 6, vib_inc := 2
    power_kw := 4, reduction := 3 / 10, steps := [("A", 5, 1)] }

/-- Job waiting in the class-A queue in the C5 scenario (2 ticks left). -/
def jC5q : Job :=
  { job_id := "J2", intensity := "light", temp_inc := 3, vib_inc := 1
    power_kw := 2, reduction := 3 / 10, steps := [("A", 2, 1)] }

/-- The C5 machine: class A, `temp_threshold = 50`, currently running
`jC5f` at base temperature. -/
def mC5 : Machine := { Machine.mk0 "A" "A_1" 40 50 2 16 3 with busy_with := some jC5f }

/-- The C5 machine right after its failing step: temperature `52 ≥ 50`,
job detached, `repairing_left = repair_time = 3`. -/
def mC5f : Machine :=
  { class_name := "A", machine_id := "A_1", temp_base := 40, temp_threshold := 50
    vib_base := 2, vib_threshold := 16, repair_time := 3, temperature := 52
    vibration := 5, busy_with := none, repairing_left := 3
    total_power_kwh := 1 / 60, was_repairing := false }

/-- Noise draws for the C5 failing tick: in-range `uniform` draws plus a
temperature spike of `5` (the spike coin fired), pushing the machine to
`40 + 6 + 1 + 5 = 52 ≥ 50`. -/
def nC5 : Noise := { uT := 1, uV := 1, spikeT := some 5, spikeV := none }

/-- State before the C5 failing tick (tick counter 4, so the next tick is 5
and the periodic IHA pulse does not run). -/
def sC5 : SimState := ⟨4, [mC5], [("A", [jC5q])], [], []⟩

/-- Environment of the C5 failing tick: the risk model returns probability
`0` (below every effective threshold), so only the physics failure fires. -/
def envC5 : TickEnv := ⟨fun _ => nC5, fun _ => some 0⟩

/-- The `FAILED` event published during the C5 scenario tick. -/
def evC5 : SimEvent := SimEvent.failed 5 "A_1" "A" "JF" "threshold_exceeded" 52 5

/-- Witness job for C1/C8/C9/C10: class A, one 5-tick step. -/
def jW1 : Job :=
  { job_id := "WJ1", intensity := "stress", temp_inc := 6, vib_inc := 2
    power_kw := 4, reduction := 3 / 10, steps := [("A", 5, 1)] }

/-- Witness machine for C1: running `jW1`, `temp_threshold = 50`. -/
def mW1 : Machine := { Machine.mk0 "A" "WM1" 40 50 2 16 3 with busy_with := some jW1 }

/-- Witness noise for C1: a spike of `4` lifts the temperature to
`40 + 6 + 1 + 4 = 51 ≥ 50`. -/
def nW1 : Noise := { uT := 1, uV := 1, spikeT := some 4, spikeV := none }

/-- Witness machine for C2/C8: idle class-A machine at base readings. -/
def mW2 : Machine := Machine.mk0 "A" "WM2" 40 100 2 16 3

/-- Witness machine for C7/C5: mid-repair (`repairing_left = 2` of 3). -/
def mW7 : Machine := { Machine.mk0 "A" "WM7" 40 100 2 16 3 with repairing_left := 2 }

/-- Witness machine for the C5 amended claim: repair just started
(`repairing_left = repair_time = 3`). -/
def mW5 : Machine := { Machine.mk0 "A" "WM5" 40 100 2 16 3 with repairing_left := 3 }

/-- Witness machine for C10: busy, so every assignment is refused. -/
def mW10 : Machine := { Machine.mk0 "A" "WM10" 40 100 2 16 3 with busy_with := some jW1 }

/-- Witness machine for C4: near its temperature limit
(`45 / 50 = 0.9 ≥ 0.8`) and running `jW1`. -/
def mW4 : Machine :=
  { Machine.mk0 "A" "WM4" 40 50 2 16 3 with busy_with := some jW1, temperature := 45 }

/-- Witness jobs and machine for C3: two class-A jobs with 5 and 2
remaining ticks, one class-A machine. -/
def jW3a : Job :=
  { job_id := "WJ3A", intensity := "stress", temp_inc := 6, vib_inc := 2
    power_kw := 4, reduction := 3 / 10, steps := [("A", 5, 1)] }

/-- Second C3 witness job (shorter remaining work, scheduled first). -/
def jW3b : Job :=
  { job_id := "WJ3B", intensity := "light", temp_inc := 3, vib_inc := 1
    power_kw := 2, reduction := 3 / 10, steps := [("A", 2, 1)] }

/-- C3 witness machine (idle, at base readings, workload `40 + 2 = 42`). -/
def mW3 : Machine := Machine.mk0 "A" "WM3" 40 50 2 16 3

/-- C3 witness queue store. -/
def qsW3 : Queues := [("A", [jW3a, jW3b])]

/-- Empty environment for the C6 witness (no machines consult it). -/
def envW6 : TickEnv := ⟨fun _ => {}, fun _ => none⟩

/-- C6 witness state: no machines, no queues — quiescent immediately. -/
def sW60 : SimState := ⟨0, [], [], [], []⟩

/-!
Shared helper lemmas: machine-level invariant preservation, fold
preservation, greedy-assignment distinctness, queue-store algebra, and
re-planner permutation facts.
-/

lemma maybe_spike_repairing (m : Machine) (n : Noise) :
    (m.maybe_spike n).repairing_left = m.repairing_left ∧
    (m.maybe_spike n).busy_with = m.busy_with := by
  unfold Machine.maybe_spike
  rcases n.spikeT <;> rcases n.spikeV <;> simp

lemma step_repair_decrements (m : Machine) (n : Noise) (h : 0 < m.repairing_left) :
    (m.step n).1 = none ∧ (m.step n).2.repairing_left = m.repairing_left - 1 := by
  unfold Machine.step
  simp only [if_pos h]
  split <;> simp_all

lemma idle_iff (m : Machine) : m.idle = true ↔ (m.busy_with = none ∧ m.repairing_left = 0) := by
  unfold Machine.idle Machine.operational
  simp [Bool.and_eq_true, Option.isNone_iff_eq_none, and_comm]

lemma mutex_assign (m : Machine) (j : Job) (h : MutexInv m) : MutexInv (m.assign j).2 := by
  unfold Machine.assign
  by_cases h1 : ¬ m.idle
  · simp [h1]
    exact h
  · by_cases h2 : j.required_class ≠ m.class_name
    · simp [h1, h2]
      exact h
    · simp only [not_not] at h1
      have hrep : m.repairing_left = 0 := ((idle_iff m).mp h1).2
      simp [h1, h2]
      split <;> exact Or.inr hrep

lemma mutex_step (m : Machine) (n : Noise) (h : MutexInv m) : MutexInv (m.step n).2 := by
  unfold Machine.step
  by_cases hr : 0 < m.repairing_left
  · have hb : m.busy_with = none := by
      rcases h with h | h
      · exact h
      · omega
    simp only [if_pos hr]
    split <;> exact Or.inl hb
  · have hrep : m.repairing_left = 0 := by omega
    simp only [if_neg hr]
    split
    · split
      · exact Or.inl rfl
      · split
        · exact Or.inl rfl
        · split
          · exact Or.inl rfl
          · right
            show (Machine.maybe_spike _ n).repairing_left = 0
            rw [(maybe_spike_repairing _ n).1]
            exact hrep
    · exact Or.inr hrep

lemma mutex_hook (θ : ℚ) (p : Option ℚ) (t : ℕ) (m : Machine) (qs : Queues)
    (evs : List SimEvent) (h : MutexInv m) :
    MutexInv (maybe_predict_failure θ p t m qs evs).1 := by
  unfold maybe_predict_failure
  split
  · exact h
  · split
    · exact h
    · split
      · exact h
      · dsimp only
        split
        · exact Or.inl rfl
        · exact h

lemma foldl_inv {σ : Type} (P : σ → Prop) (f : σ → ℕ → σ)
    (hf : ∀ st i, P st → P (f st i)) :
    ∀ (l : List ℕ) (st : σ), P st → P (l.foldl f st) := by
  intro l
  induction l with
  | nil => intro st h; exact h
  | cons a tl ih => intro st h; exact ih _ (hf st a h)

lemma machinv_set (ms : List Machine) (i : ℕ) (m' : Machine)
    (h : MachInv ms) (hm : MutexInv m') : MachInv (ms.set i m') := by
  intro x hx
  rcases List.mem_or_eq_of_mem_set hx with h1 | h1
  · exact h x h1
  · subst h1; exact hm

lemma assign_step_inv (t : ℕ) (st : LoopSt) (i : ℕ) (h : MachInv st.machines) :
    MachInv (assign_step t st i).machines := by
  unfold assign_step
  cases hget : st.machines.get? i with
  | none => simpa using h
  | some m =>
    have hm : MutexInv m := h m (List.get?_mem hget)
    simp only
    split
    · exact h
    · split
      · exact h
      · split <;> exact machinv_set _ _ _ h (mutex_assign m _ hm)

lemma machine_step_phase_inv (θ : ℚ) (env : TickEnv) (t : ℕ) (st : LoopSt) (i : ℕ)
    (h : MachInv st.machines) : MachInv (machine_step_phase θ env t st i).machines := by
  unfold machine_step_phase
  cases hget : st.machines.get? i with
  | none => simpa using h
  | some m =>
    have hm : MutexInv m := h m (List.get?_mem hget)
    have h1 : MutexInv (maybe_predict_failure θ (env.predict m.machine_id) t m st.queues st.events).1 :=
      mutex_hook _ _ _ _ _ _ hm
    have hinv1 : MachInv (st.machines.set i (maybe_predict_failure θ (env.predict m.machine_id) t m st.queues st.events).1) :=
      machinv_set _ _ _ h h1
    have h2 : MutexInv ((maybe_predict_failure θ (env.predict m.machine_id) t m st.queues st.events).1.step
        (env.noise (maybe_predict_failure θ (env.predict m.machine_id) t m st.queues st.events).1.machine_id)).2 :=
      mutex_step _ _ h1
    simp only
    split <;> exact machinv_set _ _ _ hinv1 h2

lemma assign_tasks_inv (t : ℕ) (st : LoopSt) (h : MachInv st.machines) :
    MachInv (assign_tasks t st).machines :=
  foldl_inv (fun s => MachInv s.machines) (assign_step t)
    (fun s i hs => assign_step_inv t s i hs) _ st h

lemma tick_inv (θ : ℚ) (env : TickEnv) (s : SimState) (h : MachInv s.machines) :
    MachInv (tick θ env s).1.machines := by
  have h0 : MachInv (s.machines.map
      (fun m => { m with was_repairing := decide (0 < m.repairing_left) })) := by
    intro x hx
    rcases List.mem_map.mp hx with ⟨m, hm, rfl⟩
    rcases h m hm with h1 | h1
    · exact Or.inl h1
    · exact Or.inr h1
  unfold tick
  refine foldl_inv (fun st => MachInv st.machines) (machine_step_phase θ env (s.t + 1))
    (fun st i hs => machine_step_phase_inv θ env (s.t + 1) st i hs) _ _ ?_
  exact assign_tasks_inv _ _ h0

lemma runSim_inv (θ : ℚ) (envs : ℕ → TickEnv) (fuel : ℕ) :
    ∀ (s : SimState), MachInv s.machines → MachInv (runSim θ envs fuel s).1.machines := by
  induction fuel with
  | zero => intro s h; exact h
  | succ n ih =>
    intro s h
    unfold runSim
    dsimp only
    split
    · exact tick_inv θ (envs s.t) s h
    · exact ih _ (tick_inv θ (envs s.t) s h)

lemma snoc_map_nodup (f : ℕ × ℕ → ℕ) (pairs : List (ℕ × ℕ)) (t : List ℕ) (x : ℕ × ℕ)
    (h : (pairs.map f).Nodup) (hs : ∀ p ∈ pairs, f p ∈ t) (hx : f x ∉ t) :
    ((pairs ++ [x]).map f).Nodup ∧ (∀ p ∈ pairs ++ [x], f p ∈ f x :: t) := by
  constructor
  · rw [List.map_append]
    refine List.Nodup.append h (List.nodup_singleton (f x)) ?_
    intro a ha hb
    simp at hb
    rcases List.mem_map.mp ha with ⟨p, hp, rfl⟩
    exact hx (hb ▸ hs p hp)
  · intro p hp
    rcases List.mem_append.mp hp with h1 | h1
    · exact List.mem_cons_of_mem _ (hs p h1)
    · simp at h1
      subst h1
      exact List.mem_cons_self _ _

lemma greedyLoop_nodup (nR nC : ℕ) :
    ∀ (entries : List (ℚ × ℕ × ℕ)) (tr tc : List ℕ) (pairs : List (ℕ × ℕ)),
      (pairs.map Prod.fst).Nodup → (∀ p ∈ pairs, p.1 ∈ tr) →
      (pairs.map Prod.snd).Nodup → (∀ p ∈ pairs, p.2 ∈ tc) →
      ((greedyLoop nR nC entries tr tc pairs).map Prod.fst).Nodup ∧
      ((greedyLoop nR nC entries tr tc pairs).map Prod.snd).Nodup := by
  intro entries
  induction entries with
  | nil =>
    intro tr tc pairs h1 h2 h3 h4
    exact ⟨h1, h3⟩
  | cons e rest ih =>
    rcases e with ⟨c, i, j⟩
    intro tr tc pairs h1 h2 h3 h4
    unfold greedyLoop
    split
    · exact ih tr tc pairs h1 h2 h3 h4
    case isFalse hnin =>
      push_neg at hnin
      have hrow := snoc_map_nodup Prod.fst pairs tr (i, j) h1 h2 hnin.1
      have hcol := snoc_map_nodup Prod.snd pairs tc (i, j) h3 h4 hnin.2
      dsimp only
      split
      · exact ⟨hrow.1, hcol.1⟩
      · exact ih _ _ _ hrow.1 hrow.2 hcol.1 hcol.2

lemma greedyAssignment_nodup (L : List (List ℚ)) (nR nC : ℕ) :
    ((greedyAssignment L nR nC).map Prod.fst).Nodup ∧
    ((greedyAssignment L nR nC).map Prod.snd).Nodup := by
  unfold greedyAssignment
  exact greedyLoop_nodup nR nC _ [] [] [] (by simp) (by simp) (by simp) (by simp)

lemma iha_filterMap_mem (jobs : List Job) (machs : List Machine) :
    ∀ (pairs : List (ℕ × ℕ)),
      ∀ q ∈ pairs.filterMap (fun rc =>
          match jobs.get? rc.1, machs.get? rc.2 with
          | some j, some mc => some (j, mc)
          | _, _ => none),
        ∃ rc ∈ pairs, jobs.get? rc.1 = some q.1 ∧ machs.get? rc.2 = some q.2 := by
  intro pairs
  induction pairs with
  | nil => simp
  | cons p rest ih =>
    intro q hq
    rw [List.filterMap_cons] at hq
    cases hj : jobs.get? p.1 with
    | none =>
      simp only [hj] at hq
      rcases ih q hq with ⟨rc, hrc, h⟩
      exact ⟨rc, List.mem_cons_of_mem _ hrc, h⟩
    | some jv =>
      cases hm : machs.get? p.2 with
      | none =>
        simp only [hj, hm] at hq
        rcases ih q hq with ⟨rc, hrc, h⟩
        exact ⟨rc, List.mem_cons_of_mem _ hrc, h⟩
      | some mv =>
        simp only [hj, hm] at hq
        rcases List.mem_cons.mp hq with h1 | h1
        · subst h1
          exact ⟨p, List.mem_cons_self _ _, hj, hm⟩
        · rcases ih q h1 with ⟨rc, hrc, h⟩
          exact ⟨rc, List.mem_cons_of_mem _ hrc, h⟩

lemma iha_filterMap_nodup (jobs : List Job) (machs : List Machine) (hjobs : jobs.Nodup) :
    ∀ (pairs : List (ℕ × ℕ)), (pairs.map Prod.fst).Nodup →
      ((pairs.filterMap (fun rc =>
          match jobs.get? rc.1, machs.get? rc.2 with
          | some j, some mc => some (j, mc)
          | _, _ => none)).map Prod.fst).Nodup := by
  intro pairs
  induction pairs with
  | nil => simp
  | cons p rest ih =>
    intro hnd
    rw [List.map_cons, List.nodup_cons] at hnd
    rw [List.filterMap_cons]
    cases hj : jobs.get? p.1 with
    | none => exact ih hnd.2
    | some jv =>
      cases hm : machs.get? p.2 with
      | none => exact ih hnd.2
      | some mv =>
        rw [List.map_cons, List.nodup_cons]
        refine ⟨?_, ih hnd.2⟩
        intro hmem
        rcases List.mem_map.mp hmem with ⟨q, hq, hq1⟩
        rcases iha_filterMap_mem jobs machs rest q hq with ⟨rc, hrc, hgj, _⟩
        have hlt : p.1 < jobs.length := by
          rcases List.get?_eq_some.mp hj with ⟨hl, _⟩
          exact hl
        have : p.1 = rc.1 := by
          apply List.getElem?_inj hlt hjobs
          rw [← List.get?_eq_getElem?, ← List.get?_eq_getElem?, hj, hgj, hq1]
        exact hnd.1 (this ▸ List.mem_map.mpr ⟨rc, hrc, rfl⟩)

lemma run_iha_mem_bounds (jobs : List Job) (machs : List Machine) (w : ℚ × ℚ) (eps : ℚ) :
    ∀ p ∈ run_iha jobs machs w eps,
      ∃ r c, r < jobs.length ∧ c < machs.length ∧
        jobs.get? r = some p.1 ∧ machs.get? c = some p.2 := by
  unfold run_iha
  split
  · simp
  · intro p hp
    rcases iha_filterMap_mem jobs machs _ p hp with ⟨rc, _, hgj, hgm⟩
    refine ⟨rc.1, rc.2, ?_, ?_, hgj, hgm⟩
    · rcases List.get?_eq_some.mp hgj with ⟨hl, _⟩
      exact hl
    · rcases List.get?_eq_some.mp hgm with ⟨hl, _⟩
      exact hl

lemma run_iha_ordered_nodup (jobs : List Job) (machs : List Machine) (w : ℚ × ℚ) (eps : ℚ)
    (hjobs : jobs.Nodup) : ((run_iha jobs machs w eps).map Prod.fst).Nodup := by
  unfold run_iha
  split
  · simp
  · exact iha_filterMap_nodup jobs machs hjobs _
      (greedyAssignment_nodup _ _ _).1

lemma run_iha_ordered_sub (jobs : List Job) (machs : List Machine) (w : ℚ × ℚ) (eps : ℚ) :
    ∀ a ∈ (run_iha jobs machs w eps).map Prod.fst, a ∈ jobs := by
  intro a ha
  rcases List.mem_map.mp ha with ⟨p, hp, rfl⟩
  rcases run_iha_mem_bounds jobs machs w eps p hp with ⟨r, _, _, _, hgj, _⟩
  exact List.get?_mem hgj

lemma ordered_filter_perm {α : Type} [DecidableEq α] (ordered ready : List α)
    (hready : ready.Nodup) (hord : ordered.Nodup) (hsub : ∀ a ∈ ordered, a ∈ ready) :
    (ordered ++ ready.filter (fun a => a ∉ ordered)).Perm ready := by
  have hnd : (ordered ++ ready.filter (fun a => a ∉ ordered)).Nodup := by
    refine List.Nodup.append hord (hready.filter _) ?_
    intro a ha hb
    have := List.of_mem_filter hb
    simp at this
    exact this ha
  refine (List.perm_ext_iff_of_nodup hnd hready).mpr ?_
  intro a
  constructor
  · intro ha
    rcases List.mem_append.mp ha with h | h
    · exact hsub a h
    · exact List.mem_of_mem_filter h
  · intro ha
    by_cases ho : a ∈ ordered
    · exact List.mem_append.mpr (Or.inl ho)
    · refine List.mem_append.mpr (Or.inr (List.mem_filter.mpr ⟨ha, ?_⟩))
      simpa using ho

lemma qget_qset_self (qs : Queues) (c : String) (l : List Job) : qget (qset qs c l) c = l := by
  induction qs with
  | nil => simp [qset, qget, List.lookup]
  | cons e rest ih =>
    rcases e with ⟨ck, lk⟩
    by_cases h : ck = c
    · subst h
      simp [qset, qget, List.lookup]
    · have hb : (c == ck) = false := by
        simp
        exact fun hc => h hc.symm
      simp only [qset, if_neg h, qget, List.lookup, hb]
      exact ih

lemma qget_qset_ne (qs : Queues) (c c' : String) (l : List Job) (h : c' ≠ c) :
    qget (qset qs c l) c' = qget qs c' := by
  have hb0 : (c' == c) = false := by simpa using h
  induction qs with
  | nil => simp [qset, qget, List.lookup, hb0]
  | cons e rest ih =>
    rcases e with ⟨ck, lk⟩
    by_cases hk : ck = c
    · subst hk
      simp only [qset, if_pos rfl, qget, List.lookup, hb0]
    · by_cases h2 : c' = ck
      · subst h2
        simp [qset, qget, List.lookup, hk]
      · have hb : (c' == ck) = false := by simpa using h2
        simp only [qset, if_neg hk, qget, List.lookup, hb]
        exact ih

lemma qget_qprepend_self (qs : Queues) (c : String) (j : Job) :
    qget (qprepend qs c j) c = j :: qget qs c := qget_qset_self qs c _

lemma qget_qprepend_ne (qs : Queues) (c c' : String) (j : Job) (h : c' ≠ c) :
    qget (qprepend qs c j) c' = qget qs c' := qget_qset_ne qs c c' _ h

lemma qget_mem_keys (qs : Queues) (c : String) (h : qget qs c ≠ []) : c ∈ qkeys qs := by
  induction qs with
  | nil => simp [qget, List.lookup] at h
  | cons e rest ih =>
    rcases e with ⟨ck, lk⟩
    by_cases h2 : c = ck
    · simp [qkeys, h2]
    · unfold qget List.lookup at h
      have h3 : (c == ck) = false := by simpa using h2
      simp only [h3] at h
      exact List.mem_cons_of_mem _ (ih h)

lemma ihaForClass_other (ms : List Machine) (qs : Queues) (cls c : String) (h : c ≠ cls) :
    qget (ihaForClass ms qs cls) c = qget qs c := by
  unfold ihaForClass
  dsimp only
  by_cases h1 : qget qs cls = []
  · simp only [if_pos h1]
  · simp only [if_neg h1]
    by_cases h2 : List.filter (fun m => m.class_name == cls) ms = []
    · simp only [if_pos h2]
    · simp only [if_neg h2]
      by_cases h3 : run_iha (qget qs cls) (List.filter (fun m => m.class_name == cls) ms) = []
      · simp only [if_pos h3]
      · simp only [if_neg h3]
        exact qget_qset_ne qs cls c _ h

lemma ihaForClass_perm (ms : List Machine) (qs : Queues) (cls : String)
    (h : (qget qs cls).Nodup) :
    (qget (ihaForClass ms qs cls) cls).Perm (qget qs cls) := by
  unfold ihaForClass
  dsimp only
  by_cases h1 : qget qs cls = []
  · simp only [if_pos h1]
    exact List.Perm.refl _
  · simp only [if_neg h1]
    by_cases h2 : List.filter (fun m => m.class_name == cls) ms = []
    · simp only [if_pos h2]
      exact List.Perm.refl _
    · simp only [if_neg h2]
      by_cases h3 : run_iha (qget qs cls) (List.filter (fun m => m.class_name == cls) ms) = []
      · simp only [if_pos h3]
        exact List.Perm.refl _
      · simp only [if_neg h3]
        rw [qget_qset_self]
        exact ordered_filter_perm _ _ h
          (run_iha_ordered_nodup _ _ _ _ h)
          (run_iha_ordered_sub _ _ _ _)

lemma scheduler_target_perm (ms : List Machine) (qs : Queues) (c : String)
    (h : (qget qs c).Nodup) :
    (qget (run_iha_scheduler ms qs (some c)) c).Perm (qget qs c) := by
  unfold run_iha_scheduler
  dsimp only
  by_cases h0 : qkeys qs = []
  · simp only [if_pos h0]
    exact List.Perm.refl _
  · simp only [if_neg h0]
    by_cases h1 : c ∈ qkeys qs
    · simp only [if_pos h1]
      exact ihaForClass_perm ms qs c h
    · simp only [if_neg h1]
      exact List.Perm.refl _

lemma scheduler_target_other (ms : List Machine) (qs : Queues) (c' c : String) (h : c ≠ c') :
    qget (run_iha_scheduler ms qs (some c')) c = qget qs c := by
  unfold run_iha_scheduler
  dsimp only
  by_cases h0 : qkeys qs = []
  · simp only [if_pos h0]
  · simp only [if_neg h0]
    by_cases h1 : c' ∈ qkeys qs
    · simp only [if_pos h1]
      exact ihaForClass_other ms qs c' c h
    · simp only [if_neg h1]

lemma scheduler_target_eq (ms : List Machine) (qs : Queues) (c : String)
    (h : c ∈ qkeys qs) : run_iha_scheduler ms qs (some c) = ihaForClass ms qs c := by
  unfold run_iha_scheduler
  dsimp only
  have h0 : qkeys qs ≠ [] := by
    intro hc
    rw [hc] at h
    simp at h
  simp only [if_neg h0, if_pos h]

/-!
Staged evaluation of the C5 scenario tick: the machine fails, the job is
pushed to the queue front, and the immediate IHA re-plan reorders the
class-A queue to `[jC5q, jC5f]`, demoting the failed job from the head.
-/

lemma envC5_predict (x : String) : envC5.predict x = some 0 := rfl

lemma envC5_noise (x : String) : envC5.noise x = nC5 := rfl

lemma jC5ne : (jC5f = jC5q) = False := by
  norm_num [jC5f, jC5q]

lemma jC5ne2 : (jC5q = jC5f) = False := by
  norm_num [jC5f, jC5q]

lemma hC5pred : maybe_predict_failure (32/100) (some 0) 5 mC5 [("A", [jC5q])] []
    = (mC5, [("A", [jC5q])], []) := by
  norm_num [maybe_predict_failure, mC5, Machine.mk0]

lemma hC5step : mC5.step nC5 = (some (MEvent.FAILED, jC5f), mC5f) := by
  norm_num [Machine.step, Machine.maybe_spike, mC5, mC5f, Machine.mk0, nC5,
    Job.current_power_kw, jC5f]

lemma hC5iha : run_iha [jC5f, jC5q] [mC5f] (3/5, 2/5) = [(jC5q, mC5f)] := by
  norm_num [run_iha, runIhaPairs, ihaCombinedMatrix, ihaCostMatrices, normalizeMatrix,
    safeMinMax, greedyAssignment, sortByCost, insertByCost, greedyLoop, List.range_succ,
    List.enum, List.enumFrom, List.filterMap,
    jC5f, jC5q, mC5f, Job.remaining_ticks_on_step]

lemma mC5f_class : mC5f.class_name = "A" := rfl

lemma hC5sched : run_iha_scheduler [mC5f] [("A", [jC5f, jC5q])] (some "A")
    = [("A", [jC5q, jC5f])] := by
  norm_num [run_iha_scheduler, qkeys, List.map, ihaForClass, List.filter, mC5f_class,
    qget, qset, List.lookup, hC5iha, jC5ne, beq_self_eq_true]
  simp

lemma jC5f_class : jC5f.required_class = "A" := rfl

lemma jC5f_id : jC5f.job_id = "JF" := rfl

lemma mC5f_id : mC5f.machine_id = "A_1" := rfl

lemma mC5f_temp : mC5f.temperature = 52 := rfl

lemma mC5f_vib : mC5f.vibration = 5 := rfl

lemma hC5fail : handle_failed 5 [mC5f] mC5f jC5f [("A", [jC5q])] []
    = ([("A", [jC5q, jC5f])], [evC5]) := by
  norm_num [handle_failed, qprepend, qget, qset, List.lookup, jC5f_class, mC5f_class,
    jC5f_id, mC5f_id, mC5f_temp, mC5f_vib, hC5sched, round2, roundHalfEven, evC5,
    beq_self_eq_true]

lemma hC5assign : assign_tasks 5 ⟨[mC5], [("A", [jC5q])], [], []⟩
    = ⟨[mC5], [("A", [jC5q])], [], []⟩ := by
  norm_num [assign_tasks, assign_step, Machine.idle, Machine.operational, mC5, Machine.mk0,
    List.range_succ]

lemma hC5phase : machine_step_phase (32/100) envC5 5 ⟨[mC5], [("A", [jC5q])], [], []⟩ 0
    = ⟨[mC5f], [("A", [jC5q, jC5f])], [evC5], []⟩ := by
  simp only [machine_step_phase, List.get?_cons_zero, List.set_cons_zero, envC5_predict,
    envC5_noise, hC5pred, hC5step, hC5fail]

lemma hC5eta :
    ({ class_name := mC5.class_name
       machine_id := mC5.machine_id
       temp_base := mC5.temp_base
       temp_threshold := mC5.temp_threshold
       vib_base := mC5.vib_base
       vib_threshold := mC5.vib_threshold
       repair_time := mC5.repair_time
       temperature := mC5.temperature
       vibration := mC5.vibration
       busy_with := mC5.busy_with
       repairing_left := mC5.repairing_left
       total_power_kwh := mC5.total_power_kwh
       was_repairing := decide (0 < mC5.repairing_left) } : Machine) = mC5 := rfl

lemma mC5f_rep : mC5f.repairing_left = 3 := rfl

lemma hC5tick : tick (32/100) envC5 sC5
    = (⟨5, [mC5f], [("A", [jC5q, jC5f])], [], [evC5]⟩, false) := by
  simp [tick, sC5, hC5eta, hC5assign, hC5phase, quiescent, Machine.idle, Machine.operational,
    mC5f_rep, List.range_succ]

/-!
Claim theorems.
-/

/-- C1: for a machine that is busy (not repairing), if after the per-tick
physics update (load increments, noise and spikes) the temperature reaches
`temp_threshold` or the vibration reaches `vib_threshold`, then `step()`
returns `FAILED` with the previously held job unchanged (no
`work_one_tick`), clears `busy_with`, sets `repairing_left = repair_time`,
and has accumulated the tick's power draw. -/
theorem machine_step_threshold_failure (m : Machine) (j : Job) (n : Noise)
    (hrep : m.repairing_left = 0) (hbusy : m.busy_with = some j)
    (hcross : m.temp_threshold ≤ m.temperature + j.temp_inc + n.uT + n.spikeT.getD 0 ∨
      m.vib_threshold ≤ m.vibration + j.vib_inc + n.uV + n.spikeV.getD 0) :
    m.step n =
      (some (MEvent.FAILED, j),
        { m with
          temperature := m.temperature + j.temp_inc + n.uT + n.spikeT.getD 0
          vibration := m.vibration + j.vib_inc + n.uV + n.spikeV.getD 0
          total_power_kwh := m.total_power_kwh + j.current_power_kw * (1 / 60)
          busy_with := none
          repairing_left := m.repair_time }) := by
  unfold Machine.step Machine.maybe_spike
  rcases hT : n.spikeT with _ | s <;> rcases hV : n.spikeV with _ | sv <;>
    simp [hT, hV] at hcross <;>
    simp [hrep, hbusy, hT, hV, if_pos hcross]

/-- C2: a machine never both holds a job and repairs: `idle` means exactly
`busy_with = none` and `repairing_left = 0`; `assign`, `step` and the
predictive-preemption hook each preserve the mutual exclusion, a whole
`tick` preserves it for every machine, and every state reachable by running
the simulation from the initial fleet satisfies it. -/
theorem machine_mutual_exclusion_invariant :
    (∀ m : Machine, m.idle = true ↔ (m.busy_with = none ∧ m.repairing_left = 0)) ∧
    (∀ (m : Machine) (j : Job), MutexInv m → MutexInv (m.assign j).2) ∧
    (∀ (m : Machine) (n : Noise), MutexInv m → MutexInv (m.step n).2) ∧
    (∀ (θ : ℚ) (p : Option ℚ) (t : ℕ) (m : Machine) (qs : Queues) (evs : List SimEvent),
      MutexInv m → MutexInv (maybe_predict_failure θ p t m qs evs).1) ∧
    (∀ (θ : ℚ) (env : TickEnv) (s : SimState),
      (∀ m ∈ s.machines, MutexInv m) → ∀ m' ∈ (tick θ env s).1.machines, MutexInv m') ∧
    (∀ (θ : ℚ) (envs : ℕ → TickEnv) (fuel : ℕ) (seeds : List Job),
      ∀ m' ∈ (runSim θ envs fuel (initial_state seeds)).1.machines, MutexInv m') := by
  refine ⟨idle_iff, mutex_assign, mutex_step, mutex_hook, tick_inv, ?_⟩
  intro θ envs fuel seeds
  refine runSim_inv θ envs fuel _ ?_
  intro m hm
  unfold initial_state initial_machines Machine.mk0 at hm
  simp at hm
  rcases hm with h | h | h | h | h | h | h | h <;> subst h <;> exact Or.inl rfl

/-- C3: for a non-empty class queue with at least one machine of the class,
`run_iha` emits only `(job, machine)` pairs addressed by a row index below
the job count and a column index below the machine count; when it returns a
non-empty assignment list the kernel installs exactly the emitted jobs in
order followed by the remaining queue members in their former order, which
is a permutation of the old queue (the queue is duplicate-free); when it
returns no assignments the queues are left unchanged. -/
theorem iha_replan_queue_permutation (ms : List Machine) (qs : Queues) (cls : String)
    (hnd : (qget qs cls).Nodup) (hne : qget qs cls ≠ [])
    (hmc : ms.filter (fun m => m.class_name == cls) ≠ []) :
    (∀ p ∈ run_iha (qget qs cls) (ms.filter (fun m => m.class_name == cls)) (6/10, 4/10),
      ∃ r c, r < (qget qs cls).length ∧
        c < (ms.filter (fun m => m.class_name == cls)).length ∧
        (qget qs cls).get? r = some p.1 ∧
        (ms.filter (fun m => m.class_name == cls)).get? c = some p.2) ∧
    (run_iha (qget qs cls) (ms.filter (fun m => m.class_name == cls)) (6/10, 4/10) ≠ [] →
      qget (run_iha_scheduler ms qs (some cls)) cls =
        (run_iha (qget qs cls) (ms.filter (fun m => m.class_name == cls)) (6/10, 4/10)).map Prod.fst ++
          (qget qs cls).filter (fun j =>
            j ∉ (run_iha (qget qs cls) (ms.filter (fun m => m.class_name == cls)) (6/10, 4/10)).map Prod.fst) ∧
      (qget (run_iha_scheduler ms qs (some cls)) cls).Perm (qget qs cls)) ∧
    (run_iha (qget qs cls) (ms.filter (fun m => m.class_name == cls)) (6/10, 4/10) = [] →
      run_iha_scheduler ms qs (some cls) = qs) := by
  have hkeys : cls ∈ qkeys qs := qget_mem_keys qs cls hne
  have hsch : run_iha_scheduler ms qs (some cls) = ihaForClass ms qs cls :=
    scheduler_target_eq ms qs cls hkeys
  refine ⟨run_iha_mem_bounds _ _ _ _, ?_, ?_⟩
  · intro hassign
    rw [hsch]
    unfold ihaForClass
    dsimp only
    simp only [if_neg hne, if_neg hmc, if_neg hassign]
    rw [qget_qset_self]
    refine ⟨rfl, ?_⟩
    exact ordered_filter_perm _ _ hnd
      (run_iha_ordered_nodup _ _ _ _ hnd)
      (run_iha_ordered_sub _ _ _ _)
  · intro hassign
    rw [hsch]
    unfold ihaForClass
    dsimp only
    simp only [if_neg hne, if_neg hmc, if_pos hassign]

/-- C4: the effective threshold is never below `0.32`; for a machine that
runs a job and is not repairing (with positive thresholds), the preemption
hook fires exactly when the predicted probability reaches the effective
threshold and the machine is near a limit (a reading at `≥ 80%` of its
threshold); firing emits the `PREDICTION` event with reason `will_fail`,
the risk score and the threshold, pushes the job to the front of its class
queue, clears `busy_with` and sets `repairing_left = repair_time`;
otherwise machine, queues and events are unchanged. -/
theorem predictive_preemption_spec (loaded : Option ℚ) (t : ℕ) (m : Machine) (j : Job)
    (prob : ℚ) (qs : Queues) (evs : List SimEvent)
    (hbusy : m.busy_with = some j) (hrep : m.repairing_left = 0)
    (htt : 0 < m.temp_threshold) (hvt : 0 < m.vib_threshold) :
    (32 / 100 ≤ effective_threshold loaded) ∧
    ((effective_threshold loaded ≤ prob ∧
        ((80 : ℚ) / 100 ≤ m.temperature / m.temp_threshold ∨
         (80 : ℚ) / 100 ≤ m.vibration / m.vib_threshold)) →
      maybe_predict_failure (effective_threshold loaded) (some prob) t m qs evs =
        ({ m with busy_with := none, repairing_left := m.repair_time },
          qprepend qs j.required_class j,
          evs ++ [SimEvent.prediction t m.machine_id j.job_id "will_fail" prob
            (effective_threshold loaded)])) ∧
    (¬ (effective_threshold loaded ≤ prob ∧
        ((80 : ℚ) / 100 ≤ m.temperature / m.temp_threshold ∨
         (80 : ℚ) / 100 ≤ m.vibration / m.vib_threshold)) →
      maybe_predict_failure (effective_threshold loaded) (some prob) t m qs evs =
        (m, qs, evs)) := by
  refine ⟨?_, ?_, ?_⟩
  · unfold effective_threshold
    rcases loaded with _ | v <;> simp <;> split <;> norm_num
    linarith
  · intro hf
    unfold maybe_predict_failure
    simp only [hrep, lt_irrefl, if_false, hbusy]
    rw [if_pos]
    constructor
    · exact hf.1
    · rcases hf.2 with h | h
      · exact Or.inl ⟨htt.ne', h⟩
      · exact Or.inr ⟨hvt.ne', h⟩
  · intro hf
    unfold maybe_predict_failure
    simp only [hrep, lt_irrefl, if_false, hbusy]
    rw [if_neg]
    intro hc
    exact hf ⟨hc.1, by
      rcases hc.2 with h | h
      · exact Or.inl h.2
      · exact Or.inr h.2⟩

/-- C5 (amended): when a machine returns a job with a `FAILED` event the
kernel pushes the job to the front of its class queue and immediately
re-plans that class, installing a permutation of the front-pushed queue —
so the job is still in its class queue at the start of the next tick but
not necessarily at its head; and a machine whose repair just started
(`repairing_left = repair_time > 0`) has `repairing_left = repair_time - 1`
after the next tick's per-machine advance. -/
theorem failed_job_requeued_membership :
    (∀ (t : ℕ) (ms : List Machine) (m : Machine) (j : Job) (qs : Queues)
        (evs : List SimEvent),
      (qget qs j.required_class).Nodup → j ∉ qget qs j.required_class →
      (qget (handle_failed t ms m j qs evs).1 j.required_class).Perm
        (j :: qget qs j.required_class) ∧
      j ∈ qget (handle_failed t ms m j qs evs).1 j.required_class) ∧
    (∀ (m : Machine) (n : Noise), m.busy_with = none →
      m.repairing_left = m.repair_time → 0 < m.repair_time →
      (m.step n).1 = none ∧ (m.step n).2.repairing_left = m.repair_time - 1) := by
  constructor
  · intro t ms m j qs evs hnd hjn
    have hperm : (qget (handle_failed t ms m j qs evs).1 j.required_class).Perm
        (j :: qget qs j.required_class) := by
      unfold handle_failed
      dsimp only
      by_cases hc : j.required_class = m.class_name
      · rw [← hc]
        have hnd1 : (qget (qprepend qs j.required_class j) j.required_class).Nodup := by
          rw [qget_qprepend_self]
          exact List.nodup_cons.mpr ⟨hjn, hnd⟩
        have := scheduler_target_perm ms (qprepend qs j.required_class j)
          j.required_class hnd1
        rw [qget_qprepend_self] at this
        exact this
      · rw [scheduler_target_other ms _ m.class_name j.required_class hc]
        rw [qget_qprepend_self]
    refine ⟨hperm, ?_⟩
    exact hperm.mem_iff.mpr (List.mem_cons_self _ _)
  · intro m n hb hrt hpos
    have h : 0 < m.repairing_left := hrt ▸ hpos
    rcases step_repair_decrements m n h with ⟨h1, h2⟩
    exact ⟨h1, by rw [h2, hrt]⟩

/-- C6: the tick raises `SystemExit` (the halt flag) exactly when, at the
end of the tick, every machine is idle and every class queue is empty; the
`run` loop stops right after a quiescent tick and otherwise continues with
the next tick. -/
theorem termination_quiescence (θ : ℚ) (envs : ℕ → TickEnv) (s : SimState) :
    ((tick θ (envs s.t) s).2 = true ↔
      ((∀ m ∈ (tick θ (envs s.t) s).1.machines, m.idle = true) ∧
       (∀ q ∈ (tick θ (envs s.t) s).1.class_queues, q.2 = []))) ∧
    (∀ fuel : ℕ, (tick θ (envs s.t) s).2 = false →
      runSim θ envs (fuel + 1) s = runSim θ envs fuel (tick θ (envs s.t) s).1) ∧
    (∀ fuel : ℕ, (tick θ (envs s.t) s).2 = true →
      runSim θ envs (fuel + 1) s = ((tick θ (envs s.t) s).1, true)) := by
  refine ⟨?_, ?_, ?_⟩
  · simp [tick, quiescent, List.all_eq_true, List.isEmpty_iff]
  · intro fuel h
    simp [runSim, h]
  · intro fuel h
    simp [runSim, h]

/-- C7: for a repairing machine, `step()` decrements `repairing_left` by
exactly one and returns `(none, none)`; when the decrement reaches zero it
snaps temperature and vibration back to their base values, so immediately
after a repair completes `temperature ≥ temp_base` and
`vibration ≥ vib_base` hold; otherwise the readings are untouched. -/
theorem machine_step_repair_countdown (m : Machine) (n : Noise)
    (h : 0 < m.repairing_left) :
    (m.step n).1 = none ∧
    (m.step n).2.repairing_left = m.repairing_left - 1 ∧
    ((m.step n).2.repairing_left = 0 →
      (m.step n).2.temperature = m.temp_base ∧ (m.step n).2.vibration = m.vib_base ∧
      m.temp_base ≤ (m.step n).2.temperature ∧ m.vib_base ≤ (m.step n).2.vibration) ∧
    ((m.step n).2.repairing_left ≠ 0 →
      (m.step n).2.temperature = m.temperature ∧ (m.step n).2.vibration = m.vibration) ∧
    (m.step n).2.busy_with = m.busy_with := by
  unfold Machine.step
  simp only [if_pos h]
  by_cases h0 : m.repairing_left - 1 = 0 <;> simp [h0]

/-- C8: `assign(job)` returns `False` exactly when the machine is not idle
or the job's required class differs from the machine's class; on success it
subtracts `reduction * (temperature - temp_base)` from the temperature and
`reduction * (vibration - vib_base)` from the vibration and then stores the
job in `busy_with` (for the program's non-negative `reduction`). -/
theorem machine_assign_spec (m : Machine) (j : Job) (hred : 0 ≤ j.reduction) :
    ((m.assign j).1 = false ↔ (m.idle = false ∨ j.required_class ≠ m.class_name)) ∧
    ((m.assign j).1 = true →
      (m.assign j).2 = { m with
        temperature := m.temperature - j.reduction * (m.temperature - m.temp_base)
        vibration := m.vibration - j.reduction * (m.vibration - m.vib_base)
        busy_with := some j }) := by
  unfold Machine.assign
  by_cases h1 : ¬ m.idle
  · simp [h1]
  · by_cases h2 : j.required_class ≠ m.class_name
    · simp [h1, h2]
    · simp at h1 h2
      rcases lt_or_eq_of_le hred with hpos | hzero
      · simp [h1, h2, hpos.not_lt, if_pos hpos]
        constructor <;> ring
      · simp [h1, h2, ← hzero]

/-- C9: for a non-done job whose current step has at least one tick left
and non-negative power, `work_one_tick()` decrements the step's remaining
ticks by exactly one, adds `power_kw * (1/60)` to `energy_used` (which
therefore never decreases), and advances `current_step` by one exactly when
the step's remaining ticks reach zero. -/
theorem job_work_one_tick_spec (j : Job) (cls : String) (rem : Int) (pwr : ℚ)
    (hstep : j.steps.get? j.current_step = some (cls, rem, pwr))
    (hrem : 1 ≤ rem) (hpwr : 0 ≤ pwr) :
    j.work_one_tick.steps.get? j.current_step = some (cls, rem - 1, pwr) ∧
    j.work_one_tick.energy_used = j.energy_used + pwr * (1 / 60) ∧
    j.energy_used ≤ j.work_one_tick.energy_used ∧
    (j.work_one_tick.current_step = j.current_step + 1 ↔ rem - 1 = 0) ∧
    (¬ rem - 1 = 0 → j.work_one_tick.current_step = j.current_step) := by
  have hlt : j.current_step < j.steps.length := by
    rcases List.get?_eq_some.mp hstep with ⟨h, _⟩
    exact h
  have hdone : j.done = false := by
    unfold Job.done
    simp [Nat.not_le.mpr hlt]
  have hadv : (rem - 1 ≤ 0) ↔ (rem - 1 = 0) := by omega
  unfold Job.work_one_tick
  rw [hdone]
  simp only [Bool.false_eq_true, if_false, hstep]
  by_cases hz : rem - 1 = 0
  case pos =>
    rw [if_pos (hadv.mpr hz)]
    refine ⟨?_, rfl, ?_, ?_, fun hc => absurd hz hc⟩
    · simp [List.getElem?_set_self hlt]
    · simp
      positivity
    · simp [hz]
  case neg =>
    rw [if_neg (fun hc => hz (hadv.mp hc))]
    refine ⟨?_, rfl, ?_, ?_, fun _ => rfl⟩
    · simp [List.getElem?_set_self hlt]
    · simp
      positivity
    · simp [hz]

/-- C10: a refused `assign` is side-effect free: whenever it returns
`False` the machine is returned unchanged (and the job is never written to
by `assign` at all). -/
theorem machine_assign_refused_pure (m : Machine) (j : Job)
    (h : (m.assign j).1 = false) : (m.assign j).2 = m := by
  unfold Machine.assign at h ⊢
  by_cases h1 : ¬ m.idle <;> by_cases h2 : j.required_class ≠ m.class_name <;>
    simp [h1, h2] at h ⊢

/-- C5 (counterexample): in the concrete one-machine scenario the machine
fails with job `jC5f` during tick 5 (the `FAILED` event is published), yet
at the end of that tick — the state the next tick's assignment phase reads —
the head of the class-A queue is the other job, not `jC5f`: the IHA re-plan
that follows the front-push demoted the failed job. -/
theorem failed_job_not_requeued_at_head :
    jC5f.required_class = "A" ∧
    SimEvent.failed 5 "A_1" "A" "JF" "threshold_exceeded" 52 5 ∈
      (tick (32/100) envC5 sC5).1.events ∧
    (qget (tick (32/100) envC5 sC5).1.class_queues "A").head? ≠ some jC5f := by
  refine ⟨rfl, ?_, ?_⟩
  · rw [hC5tick]
    simp [evC5]
  · rw [hC5tick]
    simp [qget, List.lookup, jC5ne2]

/-!
Witnesses: each claim theorem applied at a concrete input with its
hypotheses discharged there.
-/

lemma mW3_class : mW3.class_name = "A" := rfl

lemma hW3filter : List.filter (fun m => m.class_name == "A") [mW3] = [mW3] := by
  simp [List.filter, mW3_class]

lemma hW3get : qget qsW3 "A" = [jW3a, jW3b] := by
  simp [qget, qsW3, List.lookup]

lemma hW3iha : run_iha [jW3a, jW3b] [mW3] (6/10, 4/10) = [(jW3b, mW3)] := by
  norm_num [run_iha, runIhaPairs, ihaCombinedMatrix, ihaCostMatrices, normalizeMatrix,
    safeMinMax, greedyAssignment, sortByCost, insertByCost, greedyLoop, List.range_succ,
    List.enum, List.enumFrom, List.filterMap,
    jW3a, jW3b, mW3, Machine.mk0, Job.remaining_ticks_on_step]

/-- Witness for C1 at a concrete running machine, job and noise draw. -/
theorem machine_step_threshold_failure_witness :
    mW1.repairing_left = 0 ∧ mW1.busy_with = some jW1 ∧
    (mW1.temp_threshold ≤ mW1.temperature + jW1.temp_inc + nW1.uT + nW1.spikeT.getD 0 ∨
     mW1.vib_threshold ≤ mW1.vibration + jW1.vib_inc + nW1.uV + nW1.spikeV.getD 0) ∧
    mW1.step nW1 =
      (some (MEvent.FAILED, jW1),
        { mW1 with
          temperature := mW1.temperature + jW1.temp_inc + nW1.uT + nW1.spikeT.getD 0
          vibration := mW1.vibration + jW1.vib_inc + nW1.uV + nW1.spikeV.getD 0
          total_power_kwh := mW1.total_power_kwh + jW1.current_power_kw * (1 / 60)
          busy_with := none
          repairing_left := mW1.repair_time }) := by
  have hcross : mW1.temp_threshold ≤ mW1.temperature + jW1.temp_inc + nW1.uT + nW1.spikeT.getD 0 ∨
      mW1.vib_threshold ≤ mW1.vibration + jW1.vib_inc + nW1.uV + nW1.spikeV.getD 0 := by
    norm_num [mW1, jW1, nW1, Machine.mk0]
  exact ⟨rfl, rfl, hcross, machine_step_threshold_failure mW1 jW1 nW1 rfl rfl hcross⟩

/-- Witness for C2: assigning a job to an idle machine keeps the mutual
exclusion. -/
theorem machine_mutual_exclusion_invariant_witness :
    MutexInv (mW2.assign jW1).2 :=
  machine_mutual_exclusion_invariant.2.1 mW2 jW1 (Or.inl rfl)

/-- Witness for C3: on the concrete two-job one-machine class the re-plan
installs a permutation of the queue. -/
theorem iha_replan_queue_permutation_witness :
    (qget qsW3 "A").Nodup ∧
    qget qsW3 "A" ≠ [] ∧
    List.filter (fun m => m.class_name == "A") [mW3] ≠ [] ∧
    run_iha (qget qsW3 "A") (List.filter (fun m => m.class_name == "A") [mW3]) (6/10, 4/10) ≠ [] ∧
    (qget (run_iha_scheduler [mW3] qsW3 (some "A")) "A").Perm (qget qsW3 "A") := by
  have h1 : (qget qsW3 "A").Nodup := by
    rw [hW3get]
    norm_num [jW3a, jW3b]
  have h2 : qget qsW3 "A" ≠ [] := by
    rw [hW3get]
    simp
  have h3 : List.filter (fun m => m.class_name == "A") [mW3] ≠ [] := by
    rw [hW3filter]
    simp
  have h4 : run_iha (qget qsW3 "A") (List.filter (fun m => m.class_name == "A") [mW3])
      (6/10, 4/10) ≠ [] := by
    rw [hW3get, hW3filter, hW3iha]
    simp
  exact ⟨h1, h2, h3, h4, ((iha_replan_queue_permutation [mW3] qsW3 "A" h1 h2 h3).2.1 h4).2⟩

/-- Witness for C4: a near-limit machine with risk `0.5` above the floored
threshold `0.32` is preempted. -/
theorem predictive_preemption_spec_witness :
    mW4.busy_with = some jW1 ∧ mW4.repairing_left = 0 ∧
    maybe_predict_failure (effective_threshold (some (1/4))) (some (1/2)) 7 mW4 [] [] =
      ({ mW4 with busy_with := none, repairing_left := mW4.repair_time },
        qprepend [] jW1.required_class jW1,
        [] ++ [SimEvent.prediction 7 mW4.machine_id jW1.job_id "will_fail" (1/2)
          (effective_threshold (some (1/4)))]) := by
  have htt : (0:ℚ) < mW4.temp_threshold := by norm_num [mW4, Machine.mk0]
  have hvt : (0:ℚ) < mW4.vib_threshold := by norm_num [mW4, Machine.mk0]
  have hfired : effective_threshold (some (1/4)) ≤ (1/2 : ℚ) ∧
      ((80:ℚ)/100 ≤ mW4.temperature / mW4.temp_threshold ∨
       (80:ℚ)/100 ≤ mW4.vibration / mW4.vib_threshold) := by
    constructor
    · norm_num [effective_threshold]
    · left
      norm_num [mW4, Machine.mk0]
  exact ⟨rfl, rfl,
    (predictive_preemption_spec (some (1/4)) 7 mW4 jW1 (1/2) [] [] rfl rfl htt hvt).2.1 hfired⟩

/-- Witness for the amended C5 at a concrete failed job and a machine that
just entered repair. -/
theorem failed_job_requeued_membership_witness :
    (qget ([] : Queues) jW1.required_class).Nodup ∧
    jW1 ∈ qget (handle_failed 1 [] mW5 jW1 [] []).1 jW1.required_class ∧
    (mW5.step {}).2.repairing_left = mW5.repair_time - 1 := by
  have hnd : (qget ([] : Queues) jW1.required_class).Nodup := by simp [qget, List.lookup]
  have hnm : jW1 ∉ qget ([] : Queues) jW1.required_class := by simp [qget, List.lookup]
  refine ⟨hnd, (failed_job_requeued_membership.1 1 [] mW5 jW1 [] [] hnd hnm).2, ?_⟩
  exact (failed_job_requeued_membership.2 mW5 {} rfl rfl (by norm_num [mW5, Machine.mk0])).2

/-- Witness for C6: the empty simulation quiesces at once and the run loop
stops right after that tick. -/
theorem termination_quiescence_witness :
    runSim (32/100) (fun _ => envW6) 1 sW60 =
      ((tick (32/100) ((fun _ => envW6) sW60.t) sW60).1, true) := by
  have hq : (tick (32/100) ((fun _ => envW6) sW60.t) sW60).2 = true := by
    norm_num [tick, sW60, quiescent, assign_tasks, run_iha_scheduler, qkeys,
      List.range_zero]
  exact (termination_quiescence (32/100) (fun _ => envW6) sW60).2.2 0 hq

/-- Witness for C7 at a machine two ticks from repair completion. -/
theorem machine_step_repair_countdown_witness :
    0 < mW7.repairing_left ∧
    (mW7.step {}).1 = none ∧ (mW7.step {}).2.repairing_left = mW7.repairing_left - 1 := by
  have h : 0 < mW7.repairing_left := by norm_num [mW7, Machine.mk0]
  have hr := machine_step_repair_countdown mW7 {} h
  exact ⟨h, hr.1, hr.2.1⟩

/-- Witness for C8 at an idle machine and a matching job. -/
theorem machine_assign_spec_witness :
    (0:ℚ) ≤ jW1.reduction ∧
    ((mW2.assign jW1).1 = false ↔ (mW2.idle = false ∨ jW1.required_class ≠ mW2.class_name)) := by
  have h : (0:ℚ) ≤ jW1.reduction := by norm_num [jW1]
  exact ⟨h, (machine_assign_spec mW2 jW1 h).1⟩

/-- Witness for C9 at a concrete two-tick step. -/
theorem job_work_one_tick_spec_witness :
    jW3b.steps.get? jW3b.current_step = some ("A", 2, 1) ∧
    jW3b.work_one_tick.energy_used = jW3b.energy_used + 1 * (1 / 60) := by
  have hstep : jW3b.steps.get? jW3b.current_step = some ("A", 2, 1) := rfl
  have h := job_work_one_tick_spec jW3b "A" 2 1 hstep (by norm_num) (by norm_num)
  exact ⟨hstep, h.2.1⟩

/-- Witness for C10: a busy machine refuses the assignment and is returned
unchanged. -/
theorem machine_assign_refused_pure_witness :
    (mW10.assign jW1).1 = false ∧ (mW10.assign jW1).2 = mW10 := by
  have h : (mW10.assign jW1).1 = false := by
    norm_num [Machine.assign, Machine.idle, Machine.operational, mW10, Machine.mk0]
  exact ⟨h, machine_assign_refused_pure mW10 jW1 h⟩

end JobShop
